import Mathlib

/-
  Verification development for the ImageGenStudio repository.

  The definitions below are shallow embeddings of the TypeScript source:
    - src/lib/modelConfig.ts                 (capability matrix)
    - src/components/AutocompleteTextarea.tsx (correction-only editor variant)
    - src/unnamed/part_002                    (two-suggestion editor variant)
    - src/components/ImagePreview.tsx         (ImageStudio model switching)

  JavaScript strings are modelled as List Char; Date.now timestamps and
  setTimeout delays as Int (milliseconds); fallible network responses as
  Option values.
-/

namespace ImageGenStudio

/-! ## JS string primitives -/

/-- Drops leading whitespace characters, as the leading half of
JavaScript String.prototype.trim. -/
def trimLeft : List Char → List Char
  | [] => []
  | c :: cs => if c.isWhitespace then trimLeft cs else c :: cs

/-- JavaScript String.prototype.trim: strip whitespace from both ends.
Stripping the reversed list removes the trailing whitespace; after
reversing back, a final trimLeft removes the leading whitespace. -/
def jsTrim (s : List Char) : List Char :=
  trimLeft ((trimLeft s.reverse).reverse)

/-! ## src/lib/modelConfig.ts -/

/-- The Layout union type of modelConfig.ts. -/
inductive Layout
  | landscape
  | mobile
  | square
  | reference
deriving DecidableEq, BEq

/-- The Model union type of modelConfig.ts (the four backend providers). -/
inductive Model
  | google
  | grok
  | huggingface
  | qwen
deriving DecidableEq, BEq

/-- LayoutConfig interface of modelConfig.ts. -/
structure LayoutConfig where
  value : Layout
  label : String
  dimensions : String
  width : Nat
  height : Nat
  icon : String
deriving DecidableEq

/-- ModelCapabilities interface of modelConfig.ts. -/
structure ModelCapabilities where
  supportsReferenceImages : Bool
  supportsLayoutSelection : Bool
  supportedLayouts : List Layout
  requiresReferenceImage : Bool
deriving DecidableEq

/-- The MODEL_CAPABILITIES record of modelConfig.ts, as a total function
from provider to capability profile. -/
def MODEL_CAPABILITIES : Model → ModelCapabilities
  | Model.google =>
      { supportsReferenceImages := true
        supportsLayoutSelection := true
        supportedLayouts := [Layout.landscape, Layout.mobile, Layout.square]
        requiresReferenceImage := false }
  | Model.grok =>
      { supportsReferenceImages := false
        supportsLayoutSelection := true
        supportedLayouts := [Layout.landscape, Layout.mobile, Layout.square]
        requiresReferenceImage := false }
  | Model.huggingface =>
      { supportsReferenceImages := true
        supportsLayoutSelection := true
        supportedLayouts := [Layout.landscape, Layout.mobile, Layout.square, Layout.reference]
        requiresReferenceImage := false }
  | Model.qwen =>
      { supportsReferenceImages := true
        supportsLayoutSelection := false
        supportedLayouts := [Layout.reference]
        requiresReferenceImage := true }

/-- Entry 0 of LAYOUT_CONFIGS. -/
def landscapeConfig : LayoutConfig :=
  { value := Layout.landscape, label := "Landscape", dimensions := "1920x1080"
    width := 1920, height := 1080, icon := "▭" }

/-- Entry 1 of LAYOUT_CONFIGS. -/
def mobileConfig : LayoutConfig :=
  { value := Layout.mobile, label := "Mobile", dimensions := "1080x1920"
    width := 1080, height := 1920, icon := "▯" }

/-- Entry 2 of LAYOUT_CONFIGS. -/
def squareConfig : LayoutConfig :=
  { value := Layout.square, label := "Square", dimensions := "1024x1024"
    width := 1024, height := 1024, icon := "▢" }

/-- Entry 3 of LAYOUT_CONFIGS: the reference-matched layout, whose stored
width and height are the 0 by 0 placeholder (dimensions string "Auto"). -/
def referenceConfig : LayoutConfig :=
  { value := Layout.reference, label := "Reference", dimensions := "Auto"
    width := 0, height := 0, icon := "📐" }

/-- The LAYOUT_CONFIGS array of modelConfig.ts. -/
def LAYOUT_CONFIGS : List LayoutConfig :=
  [landscapeConfig, mobileConfig, squareConfig, referenceConfig]

/-- getLayoutConfig of modelConfig.ts: find the entry for the layout,
defaulting to LAYOUT_CONFIGS[2] (the square entry) when the find fails. -/
def getLayoutConfig (layout : Layout) : LayoutConfig :=
  ((LAYOUT_CONFIGS.find? (fun l => l.value == layout)).getD squareConfig)

/-- getLayoutsForModel of modelConfig.ts: filter LAYOUT_CONFIGS by the
capabilities of the model, excluding the reference layout when no
reference image is present. -/
def getLayoutsForModel (model : Model) (hasReferenceImage : Bool) : List LayoutConfig :=
  let capabilities := MODEL_CAPABILITIES model
  LAYOUT_CONFIGS.filter (fun layout =>
    if !(capabilities.supportedLayouts.contains layout.value) then false
    else if layout.value == Layout.reference && !hasReferenceImage then false
    else true)

/-- A width and height pair in pixels. -/
structure Dimensions where
  width : Nat
  height : Nat
deriving DecidableEq

/-- getLayoutDimensions of modelConfig.ts: the reference layout with
available reference dimensions returns those dimensions; every other case
falls through to the stored width and height of the layout config. -/
def getLayoutDimensions (layout : Layout) (referenceDimensions : Option Dimensions) :
    Dimensions :=
  match layout, referenceDimensions with
  | Layout.reference, some d => d
  | _, _ =>
      let config := getLayoutConfig layout
      { width := config.width, height := config.height }

/-! ## Ghost-suffix computation (src/components/AutocompleteTextarea.tsx, ghostTextSuffix) -/

/-- The while loop of ghostTextSuffix: length of the longest common
case-insensitive prefix, comparing characters lowered one by one. -/
def commonPrefixLength : List Char → List Char → Nat
  | a :: as, b :: bs =>
      if a.toLower = b.toLower then commonPrefixLength as bs + 1 else 0
  | _, _ => 0

/-- Boolean list prefix test (JavaScript String.prototype.startsWith on
already-lowered character lists). -/
def isPrefixList : List Char → List Char → Bool
  | [], _ => true
  | _ :: _, [] => false
  | a :: as, b :: bs => a == b && isPrefixList as bs

/-- The check suggestion.toLowerCase().startsWith(userInput.toLowerCase())
of ghostTextSuffix, with lowering modelled character by character. -/
def lowerStartsWith (suggestion userInput : List Char) : Bool :=
  isPrefixList (userInput.map Char.toLower) (suggestion.map Char.toLower)

/-- The ghostTextSuffix useMemo of AutocompleteTextarea.tsx: the portion of
the correction suggestion rendered as ghost text after the user input. -/
def ghostTextSuffix (isFocused : Bool) (value correctionText : List Char) : List Char :=
  if !isFocused || correctionText.isEmpty then []
  else if value.isEmpty then correctionText
  else
    let commonPrefixLen := commonPrefixLength value correctionText
    if commonPrefixLen = value.length ∧ lowerStartsWith correctionText value = true then
      correctionText.drop value.length
    else if commonPrefixLen = 0 then correctionText
    else correctionText.drop commonPrefixLen

/-! ## src/components/AutocompleteTextarea.tsx (correction-only editor variant) -/

namespace FocusVariant

/-- INITIAL_CORRECTION_DELAY_MS of AutocompleteTextarea.tsx. -/
def INITIAL_CORRECTION_DELAY_MS : Int := 3000

/-- POST_COMPLETION_DELAY_MS of AutocompleteTextarea.tsx. -/
def POST_COMPLETION_DELAY_MS : Int := 8000

/-- The per-editor state of AutocompleteTextarea.tsx: the controlled value,
the correction suggestion, the isCorrecting and isFocused flags, the
pending fetch timer (its delay in ms), the two refs
lastSuggestionTimestampRef and hasProvidedSuggestionRef, and the current
in-flight correction request with the set of aborted request ids. -/
structure CorrectionSession where
  value : List Char
  correctionText : List Char
  isCorrecting : Bool
  isFocused : Bool
  pendingTimer : Option Int
  lastSuggestionTimestamp : Int
  hasProvidedSuggestion : Bool
  curRequest : Option Nat
  aborted : List Nat
deriving DecidableEq

/-- The adaptive delay computed inside the correction-scheduling useEffect:
base delay 8000 after a suggestion has been produced, else 3000, raised to
the remaining cooldown from the last suggestion timestamp. -/
def correctionDelay (hasProvidedSuggestion : Bool)
    (lastSuggestionTimestamp now : Int) : Int :=
  let baseDelay :=
    if hasProvidedSuggestion then POST_COMPLETION_DELAY_MS
    else INITIAL_CORRECTION_DELAY_MS
  let earliestNextAllowed := lastSuggestionTimestamp + baseDelay
  let cooldownRemaining := max (earliestNextAllowed - now) 0
  max baseDelay cooldownRemaining

/-- The correction-scheduling useEffect body of AutocompleteTextarea.tsx:
when unfocused, or when the trimmed text is shorter than 5 characters, the
suggestion and any pending timer are cleared; otherwise a fetch timer with
the adaptive delay replaces any pending one. -/
def scheduleEffect (now : Int) (st : CorrectionSession) : CorrectionSession :=
  if st.isFocused = false then
    { st with correctionText := [], pendingTimer := none }
  else if 5 ≤ (jsTrim st.value).length then
    let delay := correctionDelay st.hasProvidedSuggestion st.lastSuggestionTimestamp now
    { st with pendingTimer := some delay }
  else
    { st with correctionText := [], pendingTimer := none }

/-- acceptCorrection of AutocompleteTextarea.tsx: with a non-empty
correction, replace the value by it, clear it, record the timestamp, mark
that a suggestion was provided, and clear the pending timer. -/
def acceptCorrection (now : Int) (st : CorrectionSession) : CorrectionSession :=
  if st.correctionText.isEmpty then st
  else
    { st with
        value := st.correctionText
        correctionText := []
        lastSuggestionTimestamp := now
        hasProvidedSuggestion := true
        pendingTimer := none }

/-- handleBlur of AutocompleteTextarea.tsx: a blur whose related target is
the Accept correction button returns early; any other blur unsets the
focus flag, aborts the in-flight correction request, and clears the
suggestion and the isCorrecting flag. -/
def handleBlur (relatedTargetIsAcceptButton : Bool)
    (st : CorrectionSession) : CorrectionSession :=
  if relatedTargetIsAcceptButton then st
  else
    let st1 := { st with isFocused := false }
    let st2 :=
      match st1.curRequest with
      | some i => { st1 with aborted := i :: st1.aborted }
      | none => st1
    { st2 with correctionText := [], isCorrecting := false }

end FocusVariant

/-! ## src/unnamed/part_002 (two-suggestion editor variant) -/

namespace TabVariant

/-- The UI state of the part_002 variant: value, completion ghost text,
correction text, and the double-Tab detection refs lastTabPressTimeRef and
tabPressTimerRef (modelled as whether an armed timer handle exists). -/
structure TabSession where
  value : List Char
  ghostText : List Char
  correctionText : List Char
  lastTabPressTime : Int
  tabTimerActive : Bool
deriving DecidableEq

/-- acceptGhostText of part_002: append the non-empty completion to the
value and clear it. -/
def acceptGhostText (st : TabSession) : TabSession :=
  if st.ghostText.isEmpty then st
  else { st with value := st.value ++ st.ghostText, ghostText := [] }

/-- acceptCorrection of part_002: replace the value by the non-empty
correction and clear it. -/
def acceptCorrection (st : TabSession) : TabSession :=
  if st.correctionText.isEmpty then st
  else { st with value := st.correctionText, correctionText := [] }

/-- The keys handled by handleKeyDown of part_002. -/
inductive Key
  | tab
  | escape
  | other

/-- handleKeyDown of part_002: a Tab within 300ms of the previous one with
an armed timer accepts the completion (after disarming the timer and
resetting the press time); any other Tab records the press time, accepts
the correction when present, and arms the timer; Escape clears both
suggestions. -/
def handleKeyDown (key : Key) (now : Int) (st : TabSession) : TabSession :=
  match key with
  | Key.tab =>
      let timeSinceLastTab := now - st.lastTabPressTime
      if timeSinceLastTab < 300 ∧ st.tabTimerActive = true then
        acceptGhostText { st with tabTimerActive := false, lastTabPressTime := 0 }
      else
        let st1 := acceptCorrection { st with lastTabPressTime := now }
        { st1 with tabTimerActive := true }
  | Key.escape => { st with ghostText := [], correctionText := [] }
  | Key.other => st

/-- The 300ms timer armed by a single Tab press: on expiry it resets
lastTabPressTimeRef to 0 (the timer handle itself is not nulled by the
source, so tabTimerActive stays set). -/
def tabTimerFire (st : TabSession) : TabSession :=
  { st with lastTabPressTime := 0 }

end TabVariant

/-! ## src/components/ImagePreview.tsx (ImageStudio model switching) -/

/-- The part of the ImageStudio state touched by handleModelSelect. -/
structure StudioState where
  selectedModel : Model
  selectedLayout : Layout
  uploadedImage : Option String
  error : Option String
deriving DecidableEq

/-- The modelsSupportingReferenceImages list inside handleModelSelect. -/
def modelsSupportingReferenceImages : List Model :=
  [Model.google, Model.huggingface, Model.qwen]

/-- The warning set when switching to Google with the reference layout. -/
def googleReferenceLayoutWarning : String :=
  "Reference layout is not supported with Google. Switched to square layout."

/-- The warning set when switching to Grok with a reference image. -/
def grokReferenceImageWarning : String :=
  "Reference images are not supported with Grok. Your image will be preserved when you switch to another model."

/-- handleModelSelect of ImagePreview.tsx: select the model, then adjust
layout and error message by the branch cascade of the source; the uploaded
image is never touched. -/
def handleModelSelect (model : Model) (st : StudioState) : StudioState :=
  let previousModel := st.selectedModel
  let previousModelSupportsImages :=
    modelsSupportingReferenceImages.contains previousModel
  let newModelSupportsImages :=
    modelsSupportingReferenceImages.contains model
  let st1 := { st with selectedModel := model }
  if model = Model.google ∧ st1.selectedLayout = Layout.reference then
    { st1 with
        selectedLayout := Layout.square
        error := some googleReferenceLayoutWarning }
  else if model = Model.grok ∧ st1.uploadedImage.isSome = true ∧
      previousModelSupportsImages = true then
    { st1 with error := some grokReferenceImageWarning }
  else if previousModel = Model.grok ∧ newModelSupportsImages = true then
    { st1 with error := none }
  else if previousModelSupportsImages = true ∧ newModelSupportsImages = true then
    { st1 with error := none }
  else st1

/-! ## Fetch engine of part_002: per-kind cancellation and response application

fetchCompletion and fetchCorrection each own one AbortController ref; the
synchronous prefix of a fetch aborts the previous controller of its own
kind, and the asynchronous continuation applies the response only behind
the aborted-signal guard. Controllers are modelled by request ids, the
abort signal by membership in the aborted set, and the interleaving of the
single-threaded event loop by an explicit event trace. -/

namespace Engine

/-- The two suggestion request kinds of part_002. -/
inductive SuggestionKind
  | completion
  | correction
deriving DecidableEq

/-- The other suggestion kind. -/
def SuggestionKind.other : SuggestionKind → SuggestionKind
  | SuggestionKind.completion => SuggestionKind.correction
  | SuggestionKind.correction => SuggestionKind.completion

/-- An issued suggestion request: its id (standing for the identity of its
AbortController), its kind, and the prompt it was issued with. -/
structure Request where
  id : Nat
  kind : SuggestionKind
  prompt : List Char
deriving DecidableEq

/-- The fetch-level state of part_002: the two suggestion texts, a fresh
id counter, the two per-kind current controllers (abortControllerRef and
correctionAbortControllerRef), the ids whose controller was aborted, and
the registry of issued requests. -/
structure EngineState where
  ghostText : List Char
  correctionText : List Char
  nextId : Nat
  curCompletion : Option Nat
  curCorrection : Option Nat
  aborted : List Nat
  issued : List Request
deriving DecidableEq

/-- The state of a freshly mounted editor. -/
def initialEngineState : EngineState :=
  { ghostText := [], correctionText := [], nextId := 0
    curCompletion := none, curCorrection := none, aborted := [], issued := [] }

/-- The current controller ref of a kind. -/
def EngineState.cur (st : EngineState) : SuggestionKind → Option Nat
  | SuggestionKind.completion => st.curCompletion
  | SuggestionKind.correction => st.curCorrection

/-- The suggestion text of a kind (ghostText or correctionText). -/
def EngineState.text (st : EngineState) : SuggestionKind → List Char
  | SuggestionKind.completion => st.ghostText
  | SuggestionKind.correction => st.correctionText

/-- abort() on the current controller of a kind, when one exists. -/
def abortCur (k : SuggestionKind) (st : EngineState) : EngineState :=
  match st.cur k with
  | some i => { st with aborted := i :: st.aborted }
  | none => st

/-- Install a fresh controller as the current one of a kind. -/
def setCur (k : SuggestionKind) (i : Nat) (st : EngineState) : EngineState :=
  match k with
  | SuggestionKind.completion => { st with curCompletion := some i }
  | SuggestionKind.correction => { st with curCorrection := some i }

/-- setGhostText or setCorrectionText, chosen by kind. -/
def setText (k : SuggestionKind) (t : List Char) (st : EngineState) : EngineState :=
  match k with
  | SuggestionKind.completion => { st with ghostText := t }
  | SuggestionKind.correction => { st with correctionText := t }

/-- The synchronous prefix of fetchCompletion and fetchCorrection: abort
any previous request of the same kind; for an empty or too-short prompt
clear the suggestion of that kind and return; otherwise register a new
request under a fresh controller and make it the current one. -/
def startFetch (k : SuggestionKind) (prompt : List Char) (st : EngineState) : EngineState :=
  let st1 := abortCur k st
  if (jsTrim prompt).length < 3 then setText k [] st1
  else
    let st2 := setCur k st1.nextId st1
    { st2 with
        issued := { id := st1.nextId, kind := k, prompt := prompt } :: st2.issued
        nextId := st1.nextId + 1 }

/-- The response continuation of a fetch for the request with the given
id: a transport or HTTP error (payload none) clears the suggestion of the
kind of the request; data is applied only when the controller of the
request was not aborted and the data is non-empty (and, for a correction,
its trim differs from the trimmed prompt); every other case clears. -/
def applyResponse (id : Nat) (payload : Option (List Char)) (st : EngineState) : EngineState :=
  match st.issued.find? (fun r => r.id == id) with
  | none => st
  | some r =>
      match payload with
      | none => setText r.kind [] st
      | some data =>
          match r.kind with
          | SuggestionKind.completion =>
              if ¬ id ∈ st.aborted ∧ data ≠ [] then
                setText SuggestionKind.completion data st
              else setText SuggestionKind.completion [] st
          | SuggestionKind.correction =>
              if ¬ id ∈ st.aborted ∧ data ≠ [] ∧ jsTrim data ≠ jsTrim r.prompt then
                setText SuggestionKind.correction data st
              else setText SuggestionKind.correction [] st

/-- Engine events: the synchronous start of a fetch of a kind, the arrival
of a response (payload none for a failure), and an external abort of the
current controller of a kind (the value-change cleanup and unmount paths). -/
inductive EngineEvent
  | start (k : SuggestionKind) (prompt : List Char)
  | response (id : Nat) (payload : Option (List Char))
  | abortKind (k : SuggestionKind)

/-- One event-loop step of the engine. -/
def engineStep (st : EngineState) : EngineEvent → EngineState
  | EngineEvent.start k p => startFetch k p st
  | EngineEvent.response id payload => applyResponse id payload st
  | EngineEvent.abortKind k => abortCur k st

/-- Run the engine from the mount state through an event trace. -/
def runEngine (tr : List EngineEvent) : EngineState :=
  tr.foldl engineStep initialEngineState

/-- Reachability invariant of the engine: issued ids are below the
counter; an issued request that is not the current one of its kind has
been aborted; the current controller of a kind belongs to an issued
request of that kind and bounds every issued id of that kind; and issued
ids are pairwise distinct. -/
def EngineInv (st : EngineState) : Prop :=
  (∀ r ∈ st.issued, r.id < st.nextId) ∧
  (∀ r ∈ st.issued, st.cur r.kind ≠ some r.id → r.id ∈ st.aborted) ∧
  (∀ k i, st.cur k = some i → ∃ r ∈ st.issued, r.id = i ∧ r.kind = k) ∧
  (∀ k i, st.cur k = some i → ∀ r ∈ st.issued, r.kind = k → r.id ≤ i) ∧
  (st.issued.map Request.id).Nodup

end Engine

end ImageGenStudio

namespace ImageGenStudio

/-! ## Theorems -/

/-- C1. Ghost-suffix computation: with the longest case-insensitive common
prefix of current text and suggestion computed character by character, the
visible ghost suffix is the suggestion after the current text when the
common prefix covers all of the current text and the suggestion
case-insensitively starts with the current text; the entire suggestion when
the common prefix length is 0 (also when the current text is empty); and
the suggestion after the common prefix otherwise. -/
theorem ghost_suffix_three_way (u s : List Char) (hs : s ≠ []) :
    (commonPrefixLength u s = u.length ∧ lowerStartsWith s u = true →
        ghostTextSuffix true u s = s.drop u.length)
  ∧ (commonPrefixLength u s = 0 → ghostTextSuffix true u s = s)
  ∧ (u = [] → ghostTextSuffix true u s = s)
  ∧ (commonPrefixLength u s ≠ 0 →
      ¬(commonPrefixLength u s = u.length ∧ lowerStartsWith s u = true) →
        ghostTextSuffix true u s = s.drop (commonPrefixLength u s)) := by
  have hse : s.isEmpty = false := by
    cases s with
    | nil => exact absurd rfl hs
    | cons a t => rfl
  cases u with
  | nil =>
      have h0 : commonPrefixLength [] s = 0 := by cases s <;> rfl
      refine ⟨fun _ => ?_, fun _ => ?_, fun _ => ?_, fun h _ => absurd h0 h⟩
      · simp [ghostTextSuffix, hse]
      · simp [ghostTextSuffix, hse]
      · simp [ghostTextSuffix, hse]
  | cons c cs =>
      have key : ghostTextSuffix true (c :: cs) s =
          (if commonPrefixLength (c :: cs) s = (c :: cs).length ∧
                lowerStartsWith s (c :: cs) = true then
              s.drop (c :: cs).length
            else if commonPrefixLength (c :: cs) s = 0 then s
            else s.drop (commonPrefixLength (c :: cs) s)) := by
        simp [ghostTextSuffix, hse]
      refine ⟨fun h => ?_, fun h => ?_, fun h => by simp at h, fun h1 h2 => ?_⟩
      · rw [key, if_pos h]
      · have hne : ¬(commonPrefixLength (c :: cs) s = (c :: cs).length ∧
            lowerStartsWith s (c :: cs) = true) := by
          intro hc
          rw [h] at hc
          exact absurd hc.1.symm (by simp)
        rw [key, if_neg hne, if_pos h]
      · rw [key, if_neg h2, if_neg h1]

/-- Concrete check of C1 on the common-prefix example from the spec. -/
theorem ghost_suffix_three_way_witness :
    ("a cat on the roof".toList ≠ []) ∧
      ghostTextSuffix true ("a cat on".toList) ("a cat on the roof".toList) =
        (" the roof".toList) := by
  refine ⟨by decide, ?_⟩
  have h :=
    (ghost_suffix_three_way ("a cat on".toList) ("a cat on the roof".toList)
        (by decide)).1 ⟨by decide, by decide⟩
  rw [h]
  decide

/-- C5. A provider whose capability profile has requiresReferenceImage set
(qwen is the only one) yields no selectable layouts without a reference
image, and exactly the single reference-matched layout option with one. -/
theorem layouts_for_required_reference_model (m : Model)
    (h : (MODEL_CAPABILITIES m).requiresReferenceImage = true) :
    getLayoutsForModel m false = [] ∧ getLayoutsForModel m true = [referenceConfig] := by
  cases m with
  | google => exact absurd h (by decide)
  | grok => exact absurd h (by decide)
  | huggingface => exact absurd h (by decide)
  | qwen => exact ⟨rfl, rfl⟩

/-- Concrete check of C5 at the qwen provider. -/
theorem layouts_for_required_reference_model_witness :
    (MODEL_CAPABILITIES Model.qwen).requiresReferenceImage = true ∧
      getLayoutsForModel Model.qwen false = [] ∧
      getLayoutsForModel Model.qwen true = [referenceConfig] :=
  ⟨rfl, layouts_for_required_reference_model Model.qwen rfl⟩

/-- C6. getLayoutDimensions returns the given reference dimensions for the
reference-matched layout when they are provided; the stored 0 by 0
placeholder (a degenerate square, width equal to height) when they are
absent; and for each fixed layout its fixed pixel width and height,
regardless of the reference-dimension argument. -/
theorem resolve_dimensions_spec :
    (∀ d : Dimensions, getLayoutDimensions Layout.reference (some d) = d)
  ∧ getLayoutDimensions Layout.reference none = { width := 0, height := 0 }
  ∧ (getLayoutDimensions Layout.reference none).width =
      (getLayoutDimensions Layout.reference none).height
  ∧ (∀ rd, getLayoutDimensions Layout.landscape rd = { width := 1920, height := 1080 })
  ∧ (∀ rd, getLayoutDimensions Layout.mobile rd = { width := 1080, height := 1920 })
  ∧ (∀ rd, getLayoutDimensions Layout.square rd = { width := 1024, height := 1024 }) := by
  refine ⟨fun d => rfl, rfl, rfl, fun rd => ?_, fun rd => ?_, fun rd => ?_⟩ <;>
    cases rd <;> rfl

/-- C2. Correction scheduling delay: on a change while focused with
trimmed length at least 5, the installed fetch timer delay equals
max(baseDelay, lastSuggestionTimestamp + baseDelay - now), where the base
delay is 3000ms before any suggestion has been produced and 8000ms after;
hence the fetch time now + delay is never before
lastSuggestionTimestamp + baseDelay. -/
theorem correction_delay_spec (st : FocusVariant.CorrectionSession) (now : Int)
    (hfoc : st.isFocused = true) (hlen : 5 ≤ (jsTrim st.value).length) :
    ((FocusVariant.scheduleEffect now st).pendingTimer =
        some (max
          (if st.hasProvidedSuggestion then FocusVariant.POST_COMPLETION_DELAY_MS
            else FocusVariant.INITIAL_CORRECTION_DELAY_MS)
          (st.lastSuggestionTimestamp +
            (if st.hasProvidedSuggestion then FocusVariant.POST_COMPLETION_DELAY_MS
              else FocusVariant.INITIAL_CORRECTION_DELAY_MS) - now)))
  ∧ (∀ d, (FocusVariant.scheduleEffect now st).pendingTimer = some d →
      st.lastSuggestionTimestamp +
        (if st.hasProvidedSuggestion then FocusVariant.POST_COMPLETION_DELAY_MS
          else FocusVariant.INITIAL_CORRECTION_DELAY_MS) ≤ now + d) := by
  have hmax : ∀ b x : Int, 0 ≤ b → max b (max x 0) = max b x := by
    intro b x hb
    rcases le_total x 0 with h | h
    · rw [max_eq_right h, max_eq_left hb, max_eq_left (h.trans hb)]
    · rw [max_eq_left h]
  have hb : (0 : Int) ≤
      (if st.hasProvidedSuggestion then FocusVariant.POST_COMPLETION_DELAY_MS
        else FocusVariant.INITIAL_CORRECTION_DELAY_MS) := by
    split <;> decide
  have hstep : (FocusVariant.scheduleEffect now st).pendingTimer =
      some (FocusVariant.correctionDelay st.hasProvidedSuggestion
        st.lastSuggestionTimestamp now) := by
    unfold FocusVariant.scheduleEffect
    rw [if_neg (by simp [hfoc]), if_pos hlen]
  have hdelay : FocusVariant.correctionDelay st.hasProvidedSuggestion
      st.lastSuggestionTimestamp now =
      max (if st.hasProvidedSuggestion then FocusVariant.POST_COMPLETION_DELAY_MS
            else FocusVariant.INITIAL_CORRECTION_DELAY_MS)
        (st.lastSuggestionTimestamp +
          (if st.hasProvidedSuggestion then FocusVariant.POST_COMPLETION_DELAY_MS
            else FocusVariant.INITIAL_CORRECTION_DELAY_MS) - now) := by
    unfold FocusVariant.correctionDelay
    cases h : st.hasProvidedSuggestion <;>
      simp only [h, if_true, if_false, Bool.false_eq_true] <;>
      exact hmax _ _ (by decide)
  refine ⟨by rw [hstep, hdelay], fun d hd => ?_⟩
  rw [hstep, hdelay] at hd
  have hle : st.lastSuggestionTimestamp +
      (if st.hasProvidedSuggestion then FocusVariant.POST_COMPLETION_DELAY_MS
        else FocusVariant.INITIAL_CORRECTION_DELAY_MS) - now ≤ d := by
    rw [← Option.some.inj hd]
    exact le_max_right _ _
  omega

/-- Concrete check of C2 at a focused state with an 8-character prompt. -/
theorem correction_delay_spec_witness :
    (({ value := "evening".toList ++ [' ']
        correctionText := []
        isCorrecting := false
        isFocused := true
        pendingTimer := none
        lastSuggestionTimestamp := 100
        hasProvidedSuggestion := false
        curRequest := none
        aborted := [] } : FocusVariant.CorrectionSession).isFocused = true)
  ∧ (FocusVariant.scheduleEffect 200
      { value := "evening".toList ++ [' ']
        correctionText := []
        isCorrecting := false
        isFocused := true
        pendingTimer := none
        lastSuggestionTimestamp := 100
        hasProvidedSuggestion := false
        curRequest := none
        aborted := [] }).pendingTimer = some 3000 := by
  refine ⟨rfl, ?_⟩
  have h := (correction_delay_spec
    { value := "evening".toList ++ [' ']
      correctionText := []
      isCorrecting := false
      isFocused := true
      pendingTimer := none
      lastSuggestionTimestamp := 100
      hasProvidedSuggestion := false
      curRequest := none
      aborted := [] } 200 rfl (by decide)).1
  rw [h]
  decide

/-- C7. Never-fire condition for corrections: when the editor is unfocused
or the trimmed text is shorter than 5 characters, the scheduling effect
installs no fetch timer and clears both the correction suggestion and the
pending timer; conversely a timer is installed only when focused with
trimmed length at least 5. -/
theorem correction_never_fires (st : FocusVariant.CorrectionSession) (now : Int) :
    ((st.isFocused = false ∨ (jsTrim st.value).length < 5) →
        (FocusVariant.scheduleEffect now st).pendingTimer = none ∧
          (FocusVariant.scheduleEffect now st).correctionText = [])
  ∧ ((FocusVariant.scheduleEffect now st).pendingTimer.isSome = true →
        st.isFocused = true ∧ 5 ≤ (jsTrim st.value).length) := by
  unfold FocusVariant.scheduleEffect
  by_cases hf : st.isFocused = false
  · simp [hf]
  · have hf' : st.isFocused = true := by
      cases h : st.isFocused
      · exact absurd h hf
      · rfl
    by_cases hl : 5 ≤ (jsTrim st.value).length
    · rw [if_neg hf, if_pos hl]
      refine ⟨fun h => ?_, fun _ => ⟨hf', hl⟩⟩
      rcases h with h | h
      · exact absurd h hf
      · omega
    · rw [if_neg hf, if_neg hl]
      exact ⟨fun _ => ⟨rfl, rfl⟩, by simp⟩

/-- Concrete check of C7 at an unfocused state and at a short text. -/
theorem correction_never_fires_witness :
    ((FocusVariant.scheduleEffect 500
        { value := "a fine long prompt".toList
          correctionText := "x".toList
          isCorrecting := false
          isFocused := false
          pendingTimer := some 3000
          lastSuggestionTimestamp := 0
          hasProvidedSuggestion := false
          curRequest := none
          aborted := [] }).pendingTimer = none)
  ∧ ((FocusVariant.scheduleEffect 500
        { value := "hi".toList
          correctionText := "x".toList
          isCorrecting := false
          isFocused := true
          pendingTimer := some 3000
          lastSuggestionTimestamp := 0
          hasProvidedSuggestion := false
          curRequest := none
          aborted := [] }).correctionText = []) := by
  constructor
  · exact ((correction_never_fires
      { value := "a fine long prompt".toList
        correctionText := "x".toList
        isCorrecting := false
        isFocused := false
        pendingTimer := some 3000
        lastSuggestionTimestamp := 0
        hasProvidedSuggestion := false
        curRequest := none
        aborted := [] } 500).1 (Or.inl rfl)).1
  · exact ((correction_never_fires
      { value := "hi".toList
        correctionText := "x".toList
        isCorrecting := false
        isFocused := true
        pendingTimer := some 3000
        lastSuggestionTimestamp := 0
        hasProvidedSuggestion := false
        curRequest := none
        aborted := [] } 500).1 (Or.inr (by decide))).2

/-- C10. Blur exception: a blur whose focus target is the Accept
correction button leaves the session state unchanged (focus flag,
correction suggestion, and in-flight request are all kept); a blur to any
other target unsets the focused flag, clears the correction and the
isCorrecting flag, aborts the in-flight request, and leaves everything
else (value, timer, cooldown refs) unchanged. -/
theorem blur_exception_spec (st : FocusVariant.CorrectionSession) :
    FocusVariant.handleBlur true st = st
  ∧ (FocusVariant.handleBlur false st).isFocused = false
  ∧ (FocusVariant.handleBlur false st).correctionText = []
  ∧ (FocusVariant.handleBlur false st).isCorrecting = false
  ∧ (FocusVariant.handleBlur false st).curRequest = st.curRequest
  ∧ (FocusVariant.handleBlur false st).value = st.value
  ∧ (FocusVariant.handleBlur false st).pendingTimer = st.pendingTimer
  ∧ (FocusVariant.handleBlur false st).lastSuggestionTimestamp =
      st.lastSuggestionTimestamp
  ∧ (FocusVariant.handleBlur false st).hasProvidedSuggestion =
      st.hasProvidedSuggestion
  ∧ (∀ j, j ∈ (FocusVariant.handleBlur false st).aborted ↔
      j ∈ st.aborted ∨ st.curRequest = some j) := by
  obtain ⟨v, ct, ic, f, pt, ts, hp, cr, ab⟩ := st
  cases cr with
  | none =>
      refine ⟨rfl, rfl, rfl, rfl, rfl, rfl, rfl, rfl, rfl, fun j => ?_⟩
      simp [FocusVariant.handleBlur]
  | some i =>
      refine ⟨rfl, rfl, rfl, rfl, rfl, rfl, rfl, rfl, rfl, fun j => ?_⟩
      simp only [FocusVariant.handleBlur, Bool.false_eq_true, if_false,
        List.mem_cons, Option.some.injEq]
      tauto

/-- C4. Accept postconditions: accepting a non-empty completion appends it
to the value and clears it (part_002); accepting a non-empty correction
replaces the value by it, clears it, sets the cooldown timestamp to now,
and marks that a suggestion has been produced (AutocompleteTextarea.tsx). -/
theorem accept_postconditions (g : TabVariant.TabSession)
    (s : FocusVariant.CorrectionSession) (now : Int) :
    (g.ghostText ≠ [] →
        (TabVariant.acceptGhostText g).value = g.value ++ g.ghostText ∧
        (TabVariant.acceptGhostText g).ghostText = [])
  ∧ (s.correctionText ≠ [] →
        (FocusVariant.acceptCorrection now s).value = s.correctionText ∧
        (FocusVariant.acceptCorrection now s).correctionText = [] ∧
        (FocusVariant.acceptCorrection now s).lastSuggestionTimestamp = now ∧
        (FocusVariant.acceptCorrection now s).hasProvidedSuggestion = true) := by
  constructor
  · intro hg
    have hge : g.ghostText.isEmpty = false := by
      cases h : g.ghostText with
      | nil => exact absurd h hg
      | cons a t => rfl
    unfold TabVariant.acceptGhostText
    rw [if_neg (by simp [hge])]
    exact ⟨rfl, rfl⟩
  · intro hc
    have hce : s.correctionText.isEmpty = false := by
      cases h : s.correctionText with
      | nil => exact absurd h hc
      | cons a t => rfl
    unfold FocusVariant.acceptCorrection
    rw [if_neg (by simp [hce])]
    exact ⟨rfl, rfl, rfl, rfl⟩

/-- Concrete check of C4 at nonempty suggestions. -/
theorem accept_postconditions_witness :
    (TabVariant.acceptGhostText
        { value := "a cat".toList
          ghostText := " naps".toList
          correctionText := []
          lastTabPressTime := 0
          tabTimerActive := false }).value = "a cat naps".toList
  ∧ (FocusVariant.acceptCorrection 42
        { value := "helo".toList
          correctionText := "hello".toList
          isCorrecting := false
          isFocused := true
          pendingTimer := some 3000
          lastSuggestionTimestamp := 0
          hasProvidedSuggestion := false
          curRequest := none
          aborted := [] }).value = "hello".toList := by
  have h := accept_postconditions
    { value := "a cat".toList
      ghostText := " naps".toList
      correctionText := []
      lastTabPressTime := 0
      tabTimerActive := false }
    { value := "helo".toList
      correctionText := "hello".toList
      isCorrecting := false
      isFocused := true
      pendingTimer := some 3000
      lastSuggestionTimestamp := 0
      hasProvidedSuggestion := false
      curRequest := none
      aborted := [] } 42
  refine ⟨?_, ?_⟩
  · rw [(h.1 (by decide)).1]
    decide
  · exact (h.2 (by decide)).1

/-- C8. Switching from a provider that supports reference images to grok
while an image is attached preserves the stored image (still retrievable),
surfaces the warning that it is not supported with Grok, and otherwise
only changes the selected model. -/
theorem grok_switch_preserves_reference_image (st : StudioState) (img : String)
    (himg : st.uploadedImage = some img)
    (hprev : modelsSupportingReferenceImages.contains st.selectedModel = true) :
    (handleModelSelect Model.grok st).uploadedImage = some img
  ∧ (handleModelSelect Model.grok st).uploadedImage = st.uploadedImage
  ∧ (handleModelSelect Model.grok st).error = some grokReferenceImageWarning
  ∧ (handleModelSelect Model.grok st).selectedModel = Model.grok
  ∧ (handleModelSelect Model.grok st).selectedLayout = st.selectedLayout := by
  unfold handleModelSelect
  rw [if_neg (by simp), if_pos ⟨rfl, by simp [himg], hprev⟩]
  exact ⟨himg, rfl, rfl, rfl, rfl⟩

/-- Concrete check of C8 switching google to grok with an image attached. -/
theorem grok_switch_preserves_reference_image_witness :
    (handleModelSelect Model.grok
        { selectedModel := Model.google
          selectedLayout := Layout.square
          uploadedImage := some "imgdata"
          error := none }).uploadedImage = some "imgdata"
  ∧ (handleModelSelect Model.grok
        { selectedModel := Model.google
          selectedLayout := Layout.square
          uploadedImage := some "imgdata"
          error := none }).error = some grokReferenceImageWarning :=
  ⟨(grok_switch_preserves_reference_image
      { selectedModel := Model.google
        selectedLayout := Layout.square
        uploadedImage := some "imgdata"
        error := none } "imgdata" rfl rfl).1,
    (grok_switch_preserves_reference_image
      { selectedModel := Model.google
        selectedLayout := Layout.square
        uploadedImage := some "imgdata"
        error := none } "imgdata" rfl rfl).2.2.1⟩

/-- C9. Multi-tier Tab gesture (part_002): a Tab outside the 300ms window
accepts the correction when present; a Tab inside the window with the
timer armed accepts the completion; Escape clears both suggestions and
changes nothing else; and the two-press sequence (single Tab then a second
Tab within 300ms) first replaces the value by the correction, then appends
the completion. -/
theorem tab_gesture_contract (st : TabVariant.TabSession) (now t2 : Int) :
    (¬(now - st.lastTabPressTime < 300 ∧ st.tabTimerActive = true) →
      st.correctionText ≠ [] →
        (TabVariant.handleKeyDown TabVariant.Key.tab now st).value =
            st.correctionText ∧
          (TabVariant.handleKeyDown TabVariant.Key.tab now st).correctionText = [] ∧
          (TabVariant.handleKeyDown TabVariant.Key.tab now st).ghostText =
            st.ghostText ∧
          (TabVariant.handleKeyDown TabVariant.Key.tab now st).lastTabPressTime =
            now ∧
          (TabVariant.handleKeyDown TabVariant.Key.tab now st).tabTimerActive = true)
  ∧ ((now - st.lastTabPressTime < 300 ∧ st.tabTimerActive = true) →
      st.ghostText ≠ [] →
        (TabVariant.handleKeyDown TabVariant.Key.tab now st).value =
            st.value ++ st.ghostText ∧
          (TabVariant.handleKeyDown TabVariant.Key.tab now st).ghostText = [] ∧
          (TabVariant.handleKeyDown TabVariant.Key.tab now st).correctionText =
            st.correctionText ∧
          (TabVariant.handleKeyDown TabVariant.Key.tab now st).lastTabPressTime = 0 ∧
          (TabVariant.handleKeyDown TabVariant.Key.tab now st).tabTimerActive = false)
  ∧ (TabVariant.handleKeyDown TabVariant.Key.escape now st =
      { st with ghostText := [], correctionText := [] })
  ∧ (¬(now - st.lastTabPressTime < 300 ∧ st.tabTimerActive = true) →
      st.correctionText ≠ [] → st.ghostText ≠ [] → t2 - now < 300 →
        (TabVariant.handleKeyDown TabVariant.Key.tab t2
            (TabVariant.handleKeyDown TabVariant.Key.tab now st)).value =
          st.correctionText ++ st.ghostText ∧
        (TabVariant.handleKeyDown TabVariant.Key.tab t2
            (TabVariant.handleKeyDown TabVariant.Key.tab now st)).ghostText = []) := by
  have hsingle : ∀ (s : TabVariant.TabSession) (t : Int),
      ¬(t - s.lastTabPressTime < 300 ∧ s.tabTimerActive = true) →
      s.correctionText ≠ [] →
        TabVariant.handleKeyDown TabVariant.Key.tab t s =
          { s with
              value := s.correctionText
              correctionText := []
              lastTabPressTime := t
              tabTimerActive := true } := by
    intro s t hw hc
    have hce : s.correctionText.isEmpty = false := by
      cases h : s.correctionText with
      | nil => exact absurd h hc
      | cons a l => rfl
    unfold TabVariant.handleKeyDown
    rw [if_neg hw]
    unfold TabVariant.acceptCorrection
    rw [if_neg (by simp [hce])]
  have hdouble : ∀ (s : TabVariant.TabSession) (t : Int),
      (t - s.lastTabPressTime < 300 ∧ s.tabTimerActive = true) →
      s.ghostText ≠ [] →
        TabVariant.handleKeyDown TabVariant.Key.tab t s =
          { s with
              value := s.value ++ s.ghostText
              ghostText := []
              lastTabPressTime := 0
              tabTimerActive := false } := by
    intro s t hw hg
    have hge : s.ghostText.isEmpty = false := by
      cases h : s.ghostText with
      | nil => exact absurd h hg
      | cons a l => rfl
    unfold TabVariant.handleKeyDown
    rw [if_pos hw]
    unfold TabVariant.acceptGhostText
    rw [if_neg (by simp [hge])]
  refine ⟨fun hw hc => ?_, fun hw hg => ?_, rfl, fun hw hc hg ht => ?_⟩
  · rw [hsingle st now hw hc]
    exact ⟨rfl, rfl, rfl, rfl, rfl⟩
  · rw [hdouble st now hw hg]
    exact ⟨rfl, rfl, rfl, rfl, rfl⟩
  · rw [hsingle st now hw hc]
    rw [hdouble
      { value := st.correctionText, ghostText := st.ghostText, correctionText := []
        lastTabPressTime := now, tabTimerActive := true } t2 ⟨ht, rfl⟩ hg]
    exact ⟨rfl, rfl⟩

/-- Concrete check of C9: single Tab accepts the correction, a second Tab
within 300ms then appends the completion. -/
theorem tab_gesture_contract_witness :
    (TabVariant.handleKeyDown TabVariant.Key.tab 1100
        (TabVariant.handleKeyDown TabVariant.Key.tab 1000
          { value := "a dog".toList
            ghostText := " barks".toList
            correctionText := "A dog".toList
            lastTabPressTime := 0
            tabTimerActive := false })).value = "A dog barks".toList := by
  have h := (tab_gesture_contract
    { value := "a dog".toList
      ghostText := " barks".toList
      correctionText := "A dog".toList
      lastTabPressTime := 0
      tabTimerActive := false } 1000 1100).2.2.2
    (by decide) (by decide) (by decide) (by decide)
  rw [h.1]
  decide

namespace Engine

@[simp] theorem cur_completion (st : EngineState) :
    st.cur SuggestionKind.completion = st.curCompletion := rfl

@[simp] theorem cur_correction (st : EngineState) :
    st.cur SuggestionKind.correction = st.curCorrection := rfl

@[simp] theorem text_completion (st : EngineState) :
    st.text SuggestionKind.completion = st.ghostText := rfl

@[simp] theorem text_correction (st : EngineState) :
    st.text SuggestionKind.correction = st.correctionText := rfl

theorem other_ne (k : SuggestionKind) : k.other ≠ k := by
  cases k <;> decide

@[simp] theorem abortCur_nextId (k : SuggestionKind) (st : EngineState) :
    (abortCur k st).nextId = st.nextId := by
  unfold abortCur; cases h : st.cur k <;> rfl

@[simp] theorem abortCur_issued (k : SuggestionKind) (st : EngineState) :
    (abortCur k st).issued = st.issued := by
  unfold abortCur; cases h : st.cur k <;> rfl

@[simp] theorem abortCur_curCompletion (k : SuggestionKind) (st : EngineState) :
    (abortCur k st).curCompletion = st.curCompletion := by
  unfold abortCur; cases h : st.cur k <;> rfl

@[simp] theorem abortCur_curCorrection (k : SuggestionKind) (st : EngineState) :
    (abortCur k st).curCorrection = st.curCorrection := by
  unfold abortCur; cases h : st.cur k <;> rfl

@[simp] theorem abortCur_ghostText (k : SuggestionKind) (st : EngineState) :
    (abortCur k st).ghostText = st.ghostText := by
  unfold abortCur; cases h : st.cur k <;> rfl

@[simp] theorem abortCur_correctionText (k : SuggestionKind) (st : EngineState) :
    (abortCur k st).correctionText = st.correctionText := by
  unfold abortCur; cases h : st.cur k <;> rfl

@[simp] theorem abortCur_cur (k k' : SuggestionKind) (st : EngineState) :
    (abortCur k st).cur k' = st.cur k' := by
  cases k' <;> simp

@[simp] theorem abortCur_text (k k' : SuggestionKind) (st : EngineState) :
    (abortCur k st).text k' = st.text k' := by
  cases k' <;> simp

theorem mem_abortCur_aborted (k : SuggestionKind) (st : EngineState) (j : Nat) :
    j ∈ (abortCur k st).aborted ↔ j ∈ st.aborted ∨ st.cur k = some j := by
  unfold abortCur
  cases h : st.cur k with
  | none => simp
  | some i =>
      simp only [List.mem_cons, Option.some.injEq]
      exact ⟨fun hj => hj.elim (fun e => Or.inr e.symm) Or.inl,
        fun hj => hj.elim Or.inr (fun e => Or.inl e.symm)⟩

@[simp] theorem setCur_nextId (k : SuggestionKind) (i : Nat) (st : EngineState) :
    (setCur k i st).nextId = st.nextId := by cases k <;> rfl

@[simp] theorem setCur_issued (k : SuggestionKind) (i : Nat) (st : EngineState) :
    (setCur k i st).issued = st.issued := by cases k <;> rfl

@[simp] theorem setCur_aborted (k : SuggestionKind) (i : Nat) (st : EngineState) :
    (setCur k i st).aborted = st.aborted := by cases k <;> rfl

@[simp] theorem setCur_ghostText (k : SuggestionKind) (i : Nat) (st : EngineState) :
    (setCur k i st).ghostText = st.ghostText := by cases k <;> rfl

@[simp] theorem setCur_correctionText (k : SuggestionKind) (i : Nat) (st : EngineState) :
    (setCur k i st).correctionText = st.correctionText := by cases k <;> rfl

theorem setCur_cur (k : SuggestionKind) (i : Nat) (st : EngineState) (k' : SuggestionKind) :
    (setCur k i st).cur k' = if k' = k then some i else st.cur k' := by
  cases k <;> cases k' <;> simp [setCur]

@[simp] theorem setCur_text (k : SuggestionKind) (i : Nat) (st : EngineState)
    (k' : SuggestionKind) : (setCur k i st).text k' = st.text k' := by
  cases k <;> cases k' <;> simp [setCur]

@[simp] theorem setText_nextId (k : SuggestionKind) (t : List Char) (st : EngineState) :
    (setText k t st).nextId = st.nextId := by cases k <;> rfl

@[simp] theorem setText_issued (k : SuggestionKind) (t : List Char) (st : EngineState) :
    (setText k t st).issued = st.issued := by cases k <;> rfl

@[simp] theorem setText_aborted (k : SuggestionKind) (t : List Char) (st : EngineState) :
    (setText k t st).aborted = st.aborted := by cases k <;> rfl

@[simp] theorem setText_curCompletion (k : SuggestionKind) (t : List Char) (st : EngineState) :
    (setText k t st).curCompletion = st.curCompletion := by cases k <;> rfl

@[simp] theorem setText_curCorrection (k : SuggestionKind) (t : List Char) (st : EngineState) :
    (setText k t st).curCorrection = st.curCorrection := by cases k <;> rfl

@[simp] theorem setText_cur (k : SuggestionKind) (t : List Char) (st : EngineState)
    (k' : SuggestionKind) : (setText k t st).cur k' = st.cur k' := by
  cases k <;> cases k' <;> simp [setText]

theorem setText_text (k : SuggestionKind) (t : List Char) (st : EngineState)
    (k' : SuggestionKind) :
    (setText k t st).text k' = if k' = k then t else st.text k' := by
  cases k <;> cases k' <;> simp [setText]

theorem applyResponse_ctrl (id : Nat) (payload : Option (List Char)) (st : EngineState) :
    (applyResponse id payload st).nextId = st.nextId ∧
    (applyResponse id payload st).issued = st.issued ∧
    (applyResponse id payload st).aborted = st.aborted ∧
    (applyResponse id payload st).curCompletion = st.curCompletion ∧
    (applyResponse id payload st).curCorrection = st.curCorrection := by
  cases hf : st.issued.find? (fun r => r.id == id) with
  | none => simp [applyResponse, hf]
  | some r =>
      cases payload with
      | none => simp [applyResponse, hf]
      | some data =>
          cases hk : r.kind <;> simp only [applyResponse, hf, hk] <;> split <;> simp

theorem engineInv_init : EngineInv initialEngineState := by
  refine ⟨?_, ?_, ?_, ?_, ?_⟩
  · intro r hr
    exact absurd hr (List.not_mem_nil r)
  · intro r hr
    exact absurd hr (List.not_mem_nil r)
  · intro k i hi
    cases k <;> simp [initialEngineState] at hi
  · intro k i hi
    cases k <;> simp [initialEngineState] at hi
  · simp [initialEngineState]

theorem engineInv_mono (st st' : EngineState)
    (hni : st'.nextId = st.nextId)
    (his : st'.issued = st.issued)
    (hcc : st'.curCompletion = st.curCompletion)
    (hcr : st'.curCorrection = st.curCorrection)
    (hab : ∀ j, j ∈ st.aborted → j ∈ st'.aborted)
    (h : EngineInv st) : EngineInv st' := by
  have hcur : ∀ k, st'.cur k = st.cur k := fun k => by cases k <;> simp [hcc, hcr]
  obtain ⟨h1, h2, h3, h4, h5⟩ := h
  refine ⟨?_, ?_, ?_, ?_, ?_⟩
  · intro r hr
    rw [hni]
    exact h1 r (his ▸ hr)
  · intro r hr hne
    rw [hcur] at hne
    exact hab _ (h2 r (his ▸ hr) hne)
  · intro k i hi
    rw [hcur] at hi
    obtain ⟨r, hr, hid, hk⟩ := h3 k i hi
    exact ⟨r, his.symm ▸ hr, hid, hk⟩
  · intro k i hi r hr hk
    rw [hcur] at hi
    exact h4 k i hi r (his ▸ hr) hk
  · rw [his]
    exact h5

theorem engineInv_extend (st : EngineState) (k : SuggestionKind) (p : List Char)
    (h : EngineInv st) (st' : EngineState)
    (hni : st'.nextId = st.nextId + 1)
    (his : st'.issued = { id := st.nextId, kind := k, prompt := p } :: st.issued)
    (hcurk : st'.cur k = some st.nextId)
    (hcuro : ∀ k', k' ≠ k → st'.cur k' = st.cur k')
    (hab : ∀ j, j ∈ st'.aborted ↔ j ∈ st.aborted ∨ st.cur k = some j) :
    EngineInv st' := by
  obtain ⟨h1, h2, h3, h4, h5⟩ := h
  have hcur' : ∀ k', st'.cur k' = if k' = k then some st.nextId else st.cur k' := by
    intro k'
    by_cases hkk : k' = k
    · rw [if_pos hkk, hkk, hcurk]
    · rw [if_neg hkk, hcuro k' hkk]
  refine ⟨?_, ?_, ?_, ?_, ?_⟩
  · intro r hr
    rw [his] at hr
    rw [hni]
    rcases List.mem_cons.mp hr with hr | hr
    · rw [hr]
      exact Nat.lt_succ_self _
    · exact Nat.lt_succ_of_lt (h1 r hr)
  · intro r hr hne
    rw [his] at hr
    rcases List.mem_cons.mp hr with hr | hr
    · rw [hr, hcur'] at hne
      simp at hne
    · rw [hab]
      by_cases hkk : r.kind = k
      · by_cases hcc : st.cur k = some r.id
        · exact Or.inr hcc
        · refine Or.inl (h2 r hr ?_)
          rw [hkk]
          exact hcc
      · rw [hcur' r.kind, if_neg hkk] at hne
        exact Or.inl (h2 r hr hne)
  · intro k' i hi
    rw [hcur'] at hi
    by_cases hkk : k' = k
    · rw [if_pos hkk] at hi
      refine ⟨{ id := st.nextId, kind := k, prompt := p }, ?_, ?_, ?_⟩
      · rw [his]
        exact List.mem_cons_self _ _
      · exact Option.some.inj hi
      · exact hkk.symm
    · rw [if_neg hkk] at hi
      obtain ⟨r, hr, hid, hkr⟩ := h3 k' i hi
      refine ⟨r, ?_, hid, hkr⟩
      rw [his]
      exact List.mem_cons_of_mem _ hr
  · intro k' i hi r hr hk
    rw [hcur'] at hi
    rw [his] at hr
    rcases List.mem_cons.mp hr with hr | hr
    · rw [hr] at hk ⊢
      have hkk : k' = k := hk.symm
      rw [if_pos hkk] at hi
      rw [Option.some.inj hi]
    · by_cases hkk : k' = k
      · rw [if_pos hkk] at hi
        rw [← Option.some.inj hi]
        exact Nat.le_of_lt (h1 r hr)
      · rw [if_neg hkk] at hi
        exact h4 k' i hi r hr hk
  · rw [his]
    simp only [List.map_cons, List.nodup_cons]
    refine ⟨?_, h5⟩
    intro hmem
    obtain ⟨r, hr, hid⟩ := List.mem_map.mp hmem
    have := h1 r hr
    omega

theorem engineInv_step (st : EngineState) (e : EngineEvent) (h : EngineInv st) :
    EngineInv (engineStep st e) := by
  cases e with
  | response id payload =>
      show EngineInv (applyResponse id payload st)
      obtain ⟨hni, his, hab, hcc, hcr⟩ := applyResponse_ctrl id payload st
      exact engineInv_mono st (applyResponse id payload st) hni his hcc hcr
        (fun j hj => by rw [hab]; exact hj) h
  | abortKind k =>
      show EngineInv (abortCur k st)
      refine engineInv_mono st (abortCur k st) (by simp) (by simp) (by simp) (by simp)
        (fun j hj => (mem_abortCur_aborted k st j).mpr (Or.inl hj)) h
  | start k p =>
      show EngineInv (startFetch k p st)
      simp only [startFetch]
      by_cases hshort : (jsTrim p).length < 3
      · rw [if_pos hshort]
        refine engineInv_mono st _ (by simp) (by simp) (by simp) (by simp)
          (fun j hj => ?_) h
        rw [setText_aborted]
        exact (mem_abortCur_aborted k st j).mpr (Or.inl hj)
      · rw [if_neg hshort]
        refine engineInv_extend st k p h _ ?_ ?_ ?_ ?_ ?_
        · simp
        · simp
        · cases k <;> simp [setCur]
        · intro k' hk'
          cases k <;> cases k' <;> first
            | exact absurd rfl hk'
            | simp [setCur]
        · intro j
          rw [show ({ setCur k (abortCur k st).nextId (abortCur k st) with
              issued := { id := (abortCur k st).nextId, kind := k, prompt := p } ::
                (setCur k (abortCur k st).nextId (abortCur k st)).issued
              nextId := (abortCur k st).nextId + 1 } : EngineState).aborted =
              (abortCur k st).aborted from by simp]
          exact mem_abortCur_aborted k st j

theorem engineInv_run (tr : List EngineEvent) : EngineInv (runEngine tr) := by
  suffices h : ∀ st, EngineInv st → EngineInv (tr.foldl engineStep st) from
    h initialEngineState engineInv_init
  induction tr with
  | nil => exact fun st h => h
  | cons e es ih => exact fun st h => ih (engineStep st e) (engineInv_step st e h)

end Engine

/-- C3. Race safety per kind, over every reachable engine state: starting
a fetch of a kind aborts exactly the current request of that same kind
(the aborted set grows by nothing else) and leaves the other kind's
current request and suggestion text untouched; a response whose request
was canceled (superseded, or aborted by the cleanup paths) can only clear
or leave a suggestion text, never install its payload; and whenever a
response actually installs a new non-empty suggestion, its request is the
current, most recently issued request of that kind. -/
theorem per_kind_race_safety (tr : List Engine.EngineEvent) (st : Engine.EngineState)
    (hst : st = Engine.runEngine tr) :
    (∀ (k : Engine.SuggestionKind) (p : List Char),
        (∀ j, j ∈ (Engine.engineStep st (Engine.EngineEvent.start k p)).aborted ↔
            j ∈ st.aborted ∨ st.cur k = some j)
      ∧ (Engine.engineStep st (Engine.EngineEvent.start k p)).cur k.other =
          st.cur k.other
      ∧ (Engine.engineStep st (Engine.EngineEvent.start k p)).text k.other =
          st.text k.other)
  ∧ (∀ (id : Nat) (payload : Option (List Char)) (k : Engine.SuggestionKind),
        id ∈ st.aborted →
          (Engine.engineStep st (Engine.EngineEvent.response id payload)).text k = [] ∨
            (Engine.engineStep st (Engine.EngineEvent.response id payload)).text k =
              st.text k)
  ∧ (∀ (id : Nat) (p : List Char) (k : Engine.SuggestionKind),
        p ≠ [] →
        (Engine.engineStep st (Engine.EngineEvent.response id (some p))).text k = p →
        st.text k ≠ p →
          st.cur k = some id ∧ ∀ r ∈ st.issued, r.kind = k → r.id ≤ id) := by
  refine ⟨?_, ?_, ?_⟩
  · intro k p
    show (∀ j, j ∈ (Engine.startFetch k p st).aborted ↔
          j ∈ st.aborted ∨ st.cur k = some j)
      ∧ (Engine.startFetch k p st).cur k.other = st.cur k.other
      ∧ (Engine.startFetch k p st).text k.other = st.text k.other
    simp only [Engine.startFetch]
    by_cases hshort : (jsTrim p).length < 3
    · rw [if_pos hshort]
      refine ⟨fun j => ?_, ?_, ?_⟩
      · rw [Engine.setText_aborted]
        exact Engine.mem_abortCur_aborted k st j
      · simp
      · rw [Engine.setText_text, if_neg (Engine.other_ne k), Engine.abortCur_text]
    · rw [if_neg hshort]
      refine ⟨fun j => ?_, ?_, ?_⟩
      · rw [show ({ Engine.setCur k (Engine.abortCur k st).nextId (Engine.abortCur k st) with
            issued := { id := (Engine.abortCur k st).nextId, kind := k, prompt := p } ::
              (Engine.setCur k (Engine.abortCur k st).nextId
                (Engine.abortCur k st)).issued
            nextId := (Engine.abortCur k st).nextId + 1 } :
              Engine.EngineState).aborted = (Engine.abortCur k st).aborted from by simp]
        exact Engine.mem_abortCur_aborted k st j
      · cases k <;> simp [Engine.setCur, Engine.SuggestionKind.other]
      · cases k <;> simp [Engine.setCur, Engine.SuggestionKind.other]
  · intro id payload k hab
    show (Engine.applyResponse id payload st).text k = [] ∨
      (Engine.applyResponse id payload st).text k = st.text k
    cases hf : st.issued.find? (fun r => r.id == id) with
    | none =>
        right
        simp [Engine.applyResponse, hf]
    | some r =>
        cases payload with
        | none =>
            by_cases hkk : k = r.kind
            · left
              simp [Engine.applyResponse, hf, Engine.setText_text, hkk]
            · right
              simp [Engine.applyResponse, hf, Engine.setText_text, hkk]
        | some data =>
            have hguardc : ¬(¬ id ∈ st.aborted ∧ data ≠ []) := fun hg => hg.1 hab
            have hguardr : ¬(¬ id ∈ st.aborted ∧ data ≠ [] ∧
                jsTrim data ≠ jsTrim r.prompt) := fun hg => hg.1 hab
            cases hk : r.kind with
            | completion =>
                cases k with
                | completion =>
                    left
                    simp [Engine.applyResponse, hf, hk, if_neg hguardc,
                      Engine.setText]
                | correction =>
                    right
                    simp [Engine.applyResponse, hf, hk, if_neg hguardc,
                      Engine.setText]
            | correction =>
                cases k with
                | correction =>
                    left
                    simp [Engine.applyResponse, hf, hk, if_neg hguardr,
                      Engine.setText]
                | completion =>
                    right
                    simp [Engine.applyResponse, hf, hk, if_neg hguardr,
                      Engine.setText]
  · intro id p k hp happ hchg
    have hinv : Engine.EngineInv st := by
      rw [hst]
      exact Engine.engineInv_run tr
    obtain ⟨h1, h2, h3, h4, h5⟩ := hinv
    have happ' : (Engine.applyResponse id (some p) st).text k = p := happ
    cases hf : st.issued.find? (fun r => r.id == id) with
    | none =>
        rw [show Engine.applyResponse id (some p) st = st from by
          simp [Engine.applyResponse, hf]] at happ'
        exact absurd happ' hchg
    | some r =>
        have hrmem : r ∈ st.issued := List.mem_of_find?_eq_some hf
        have hrid : r.id = id := by
          have h := List.find?_some hf
          simpa using h
        have hfinish : ¬ id ∈ st.aborted → r.kind = k →
            st.cur k = some id ∧ ∀ r' ∈ st.issued, r'.kind = k → r'.id ≤ id := by
          intro hnab hkk
          have hcur0 : st.cur r.kind = some r.id := by
            by_contra hcc
            exact hnab (hrid ▸ h2 r hrmem hcc)
          rw [hkk, hrid] at hcur0
          exact ⟨hcur0, fun r' hr' hk' => h4 k id hcur0 r' hr' hk'⟩
        cases hk : r.kind with
        | completion =>
            simp only [Engine.applyResponse, hf, hk] at happ'
            by_cases hg : ¬ id ∈ st.aborted ∧ p ≠ []
            · rw [if_pos hg, Engine.setText_text] at happ'
              by_cases hkk : k = Engine.SuggestionKind.completion
              · exact hfinish hg.1 (hk.trans hkk.symm)
              · rw [if_neg hkk] at happ'
                exact absurd happ' hchg
            · rw [if_neg hg, Engine.setText_text] at happ'
              by_cases hkk : k = Engine.SuggestionKind.completion
              · rw [if_pos hkk] at happ'
                exact absurd happ'.symm hp
              · rw [if_neg hkk] at happ'
                exact absurd happ' hchg
        | correction =>
            simp only [Engine.applyResponse, hf, hk] at happ'
            by_cases hg : ¬ id ∈ st.aborted ∧ p ≠ [] ∧ jsTrim p ≠ jsTrim r.prompt
            · rw [if_pos hg, Engine.setText_text] at happ'
              by_cases hkk : k = Engine.SuggestionKind.correction
              · exact hfinish hg.1 (hk.trans hkk.symm)
              · rw [if_neg hkk] at happ'
                exact absurd happ' hchg
            · rw [if_neg hg, Engine.setText_text] at happ'
              by_cases hkk : k = Engine.SuggestionKind.correction
              · rw [if_pos hkk] at happ'
                exact absurd happ'.symm hp
              · rw [if_neg hkk] at happ'
                exact absurd happ' hchg

/-- Concrete check of C3: after two completion fetches the first request
is aborted, and its late response cannot install a suggestion. -/
theorem per_kind_race_safety_witness :
    (0 ∈ (Engine.runEngine
        [Engine.EngineEvent.start Engine.SuggestionKind.completion ("hello".toList),
          Engine.EngineEvent.start Engine.SuggestionKind.completion
            ("hello there".toList)]).aborted)
  ∧ ((Engine.engineStep
        (Engine.runEngine
          [Engine.EngineEvent.start Engine.SuggestionKind.completion ("hello".toList),
            Engine.EngineEvent.start Engine.SuggestionKind.completion
              ("hello there".toList)])
        (Engine.EngineEvent.response 0 (some ("Hi".toList)))).text
          Engine.SuggestionKind.completion = [] ∨
      (Engine.engineStep
        (Engine.runEngine
          [Engine.EngineEvent.start Engine.SuggestionKind.completion ("hello".toList),
            Engine.EngineEvent.start Engine.SuggestionKind.completion
              ("hello there".toList)])
        (Engine.EngineEvent.response 0 (some ("Hi".toList)))).text
          Engine.SuggestionKind.completion =
        (Engine.runEngine
          [Engine.EngineEvent.start Engine.SuggestionKind.completion ("hello".toList),
            Engine.EngineEvent.start Engine.SuggestionKind.completion
              ("hello there".toList)]).text Engine.SuggestionKind.completion) := by
  refine ⟨by decide, ?_⟩
  exact (per_kind_race_safety
    [Engine.EngineEvent.start Engine.SuggestionKind.completion ("hello".toList),
      Engine.EngineEvent.start Engine.SuggestionKind.completion
        ("hello there".toList)] _ rfl).2.1
    0 (some ("Hi".toList)) Engine.SuggestionKind.completion (by decide)

end ImageGenStudio
